import Mathlib

/-!
# Verification of `hocrextract`

Shallow embedding of `src/hocrextract.py` (class `CustomTreeExtractor` and the
`__main__` driver) together with the pieces of its collaborator library that
the program's observable behaviour depends on.

Modelling conventions:
* PDF layout coordinates (pdfminer floats) are modelled as rationals `ℚ`.
* Python `int(x)` truncation is modelled by `pyInt` (truncation toward zero).
* Python `str(n)` for integers is modelled by `intRepr` (decimal digits,
  `-` sign for negatives), and `str.zfill` by `zfill`.
* Python exceptions are modelled with `Option`/`Except`.
* Python's `list.sort`, a stable comparison sort, is modelled by Mathlib's
  stable `List.insertionSort` over the comparator's nonstrict order.
-/

/-! ## Decimal rendering: model of Python `str(int)` and `str.zfill` -/

/-- The decimal digit character for `d` (used only with `d < 10`). -/
def digitChar (d : Nat) : Char :=
  if d = 0 then '0' else if d = 1 then '1' else if d = 2 then '2'
  else if d = 3 then '3' else if d = 4 then '4' else if d = 5 then '5'
  else if d = 6 then '6' else if d = 7 then '7' else if d = 8 then '8' else '9'

/-- Numeric value of a decimal digit character. -/
def digitVal (c : Char) : Nat :=
  if c = '0' then 0 else if c = '1' then 1 else if c = '2' then 2
  else if c = '3' then 3 else if c = '4' then 4 else if c = '5' then 5
  else if c = '6' then 6 else if c = '7' then 7 else if c = '8' then 8 else 9

/-- Fuelled big-endian decimal rendering of a natural number. -/
def natReprAux : Nat → Nat → List Char
  | 0, _ => []
  | fuel + 1, n =>
    if n < 10 then [digitChar n]
    else natReprAux fuel (n / 10) ++ [digitChar (n % 10)]

/-- Decimal rendering of a natural number, as Python `str` produces it. -/
def natRepr (n : Nat) : List Char := natReprAux (n + 1) n

/-- Decimal rendering of an integer, as Python `str` produces it:
digits for nonnegative values, a leading `-` for negative ones. -/
def intRepr : Int → List Char
  | Int.ofNat m => natRepr m
  | Int.negSucc m => '-' :: natRepr (m + 1)

/-- Value of a big-endian digit string (leading zeros are harmless). -/
def decodeNat (l : List Char) : Nat :=
  l.foldl (fun a c => 10 * a + digitVal c) 0

/-- Value of a rendered integer, undoing an optional leading minus sign. -/
def decodeInt (l : List Char) : Int :=
  if l.head? = some '-' then -(decodeNat (l.drop 1) : Int) else (decodeNat l : Int)

/-- Model of Python `str.zfill(w)`: left-pad with `'0'` to width `w`,
keeping a leading sign character in front of the padding. -/
def zfill (w : Nat) : List Char → List Char
  | [] => List.replicate w '0'
  | c :: rest =>
    if w ≤ (c :: rest).length then c :: rest
    else if c = '-' ∨ c = '+' then
      c :: (List.replicate (w - (c :: rest).length) '0' ++ rest)
    else List.replicate (w - (c :: rest).length) '0' ++ (c :: rest)

/-- Output path for a page, from `__main__`:
`"{stem}-{str(page_num + page_offset).zfill(4)}_HOCR.shtml"`. -/
def outputFilename (stem : List Char) (offset : Int) (pageNum : Nat) : List Char :=
  stem ++ ('-' :: zfill 4 (intRepr ((pageNum : Int) + offset))) ++ "_HOCR.shtml".data

/-! ## Regions and reading order

`get_html_for_page` collects boxes `[kind, top, left, bottom, right]` and
sorts them with `boxes.sort(key=cmp_to_key(column_order))`. -/

/-- A collected region box: normalized kind plus `(top, left, bottom, right)`
coordinates, as built at `src/hocrextract.py` lines 82-89. -/
structure Box where
  kind : String
  top : ℚ
  left : ℚ
  bottom : ℚ
  right : ℚ
deriving DecidableEq

/-- Modelled from the spec: the comparator `column_order` is imported from the
collaborator library (`pdftotree.utils.pdf.vector_utils`), whose source is not
part of this repository. Per the spec's ordering policy, two regions whose
horizontal extents overlap are compared by vertical position (difference of
tops), and two regions in disjoint horizontal bands are compared
left-column-first (difference of left edges). Negative means the first box
reads first, as in a Python `cmp` function. -/
def column_order (b1 b2 : Box) : ℚ :=
  if b1.right < b2.left ∨ b2.right < b1.left then b1.left - b2.left
  else b1.top - b2.top

/-- The nonstrict order induced by the comparator: `b1` need not come after
`b2` exactly when `column_order b1 b2 ≤ 0`. -/
def readingLe (b1 b2 : Box) : Prop := column_order b1 b2 ≤ 0

instance : DecidableRel readingLe := fun b1 b2 => by
  unfold readingLe; infer_instance

/-- Modelled from the spec: Python's `list.sort` is a stable comparison sort;
we model it as Mathlib's stable insertion sort over `readingLe`. -/
def sortReadingOrder (boxes : List Box) : List Box :=
  List.insertionSort readingLe boxes

theorem column_order_antisymm (b1 b2 : Box) :
    column_order b2 b1 = -column_order b1 b2 := by
  unfold column_order
  by_cases h : b1.right < b2.left ∨ b2.right < b1.left
  · rw [if_pos h, if_pos (Or.symm h)]; ring
  · rw [if_neg h, if_neg (fun hc => h (Or.symm hc))]; ring

theorem readingLe_total (b1 b2 : Box) : readingLe b1 b2 ∨ readingLe b2 b1 := by
  unfold readingLe
  rcases le_or_lt (column_order b1 b2) 0 with h | h
  · exact Or.inl h
  · refine Or.inr ?_
    rw [column_order_antisymm]
    linarith

/-! ### Generic facts about stable insertion sort with a total comparator -/

theorem head?_orderedInsert {α : Type} (r : α → α → Prop) [DecidableRel r]
    (x : α) (l : List α) :
    (List.orderedInsert r x l).head? = some x ∨
      (List.orderedInsert r x l).head? = l.head? := by
  cases l with
  | nil => exact Or.inl rfl
  | cons z zs =>
    rw [List.orderedInsert]
    by_cases h : r x z
    · rw [if_pos h]; exact Or.inl rfl
    · rw [if_neg h]; exact Or.inr rfl

theorem chain'_orderedInsert {α : Type} (r : α → α → Prop) [DecidableRel r]
    (total : ∀ a b, r a b ∨ r b a) (x : α) :
    ∀ l : List α, List.Chain' r l → List.Chain' r (List.orderedInsert r x l) := by
  intro l
  induction l with
  | nil => intro _; exact List.chain'_singleton x
  | cons y ys ih =>
    intro h
    rw [List.orderedInsert]
    by_cases hxy : r x y
    · rw [if_pos hxy]
      exact List.chain'_cons.mpr ⟨hxy, h⟩
    · rw [if_neg hxy]
      have hys : List.Chain' r ys := (List.chain'_cons'.mp h).2
      refine List.chain'_cons'.mpr ⟨?_, ih hys⟩
      intro z hz
      rcases head?_orderedInsert r x ys with he | he
      · rw [he] at hz
        cases hz
        rcases total x y with hc | hc
        · exact absurd hc hxy
        · exact hc
      · rw [he] at hz
        exact (List.chain'_cons'.mp h).1 z hz

theorem chain'_insertionSort {α : Type} (r : α → α → Prop) [DecidableRel r]
    (total : ∀ a b, r a b ∨ r b a) :
    ∀ l : List α, List.Chain' r (List.insertionSort r l)
  | [] => List.chain'_nil
  | x :: xs =>
    chain'_orderedInsert r total x _ (chain'_insertionSort r total xs)

theorem insertionSort_eq_of_chain' {α : Type} (r : α → α → Prop) [DecidableRel r] :
    ∀ l : List α, List.Chain' r l → List.insertionSort r l = l
  | [], _ => rfl
  | [x], _ => rfl
  | x :: y :: ys, h => by
    have h1 : r x y := (List.chain'_cons.mp h).1
    have h2 : List.Chain' r (y :: ys) := (List.chain'_cons.mp h).2
    rw [List.insertionSort, insertionSort_eq_of_chain' r (y :: ys) h2,
      List.orderedInsert, if_pos h1]

theorem insertionSort_idempotent {α : Type} (r : α → α → Prop) [DecidableRel r]
    (total : ∀ a b, r a b ∨ r b a) (l : List α) :
    List.insertionSort r (List.insertionSort r l) = List.insertionSort r l :=
  insertionSort_eq_of_chain' r _ (chain'_insertionSort r total l)

theorem pair_sublist_insertionSort {α : Type} (r : α → α → Prop) [DecidableRel r]
    {a b : α} :
    ∀ {l : List α}, List.Sublist [a, b] l → r a b →
      List.Sublist [a, b] (List.insertionSort r l) := by
  intro l
  induction l with
  | nil => intro h _; exact absurd h (by simp)
  | cons x xs ih =>
    intro h hab
    rw [List.insertionSort]
    cases h with
    | cons _ h' => exact (ih h' hab).trans (List.sublist_orderedInsert _ _)
    | cons₂ _ h' =>
      have hb : b ∈ List.insertionSort r xs :=
        (List.perm_insertionSort r xs).mem_iff.mpr (List.singleton_sublist.mp h')
      refine List.cons_sublist_orderedInsert (List.singleton_sublist.mpr hb) ?_
      intro a' ha'
      have hba : a' = b := by simpa using ha'
      rw [hba]
      exact hab

/-! ## Page layouts and scale correction (`parse`, lines 53-57) -/

/-- Drawable objects of a pdfminer layout, as far as `parse` inspects them:
`LTFigure` (with a width and children), `LTImage` (with `srcsize[0]`), and
anything else. -/
inductive LTObj where
  | figure (width : ℚ) (objs : List LTObj)
  | image (pixelWidth : ℚ)
  | other

/-- The test of the first `next(...)` generator:
`isinstance(x, LTFigure) and x.width == layout.width`. -/
def isBgFigure (w : ℚ) : LTObj → Bool
  | LTObj.figure fw _ => fw = w
  | _ => false

/-- The test of the second `next(...)` generator: `isinstance(x, LTImage)`. -/
def isImage : LTObj → Bool
  | LTObj.image _ => true
  | _ => false

/-- A pdfminer `LTPage`: declared layout width/height and drawable objects. -/
structure LTPageM where
  width : ℚ
  height : ℚ
  objs : List LTObj

/-- The `StopIteration` raised by `next` on an exhausted generator: either no
width-matching figure exists, or the first one holds no image. -/
inductive ScaleErr where
  | noBgFigure
  | noBgImage
deriving DecidableEq

/-- Lines 55-57 of `parse`: find the first figure whose width equals the page
width, find the first image inside it, and divide that image's pixel width by
the layout width. An exhausted `next` raises (no default is supplied). -/
def computeScale (layout : LTPageM) : Except ScaleErr ℚ :=
  match layout.objs.find? (isBgFigure layout.width) with
  | some (LTObj.figure _ fobjs) =>
    (match fobjs.find? isImage with
     | some (LTObj.image p) => Except.ok (p / layout.width)
     | _ => Except.error ScaleErr.noBgImage)
  | _ => Except.error ScaleErr.noBgFigure

/-- Uniform rescaling of a drawable object by factor `c`. -/
def scaleObj (c : ℚ) : LTObj → LTObj
  | LTObj.figure w objs => LTObj.figure (c * w) (objs.attach.map (fun o => scaleObj c o.1))
  | LTObj.image p => LTObj.image (c * p)
  | LTObj.other => LTObj.other
decreasing_by
  simp only [LTObj.figure.sizeOf_spec]
  have h := List.sizeOf_lt_of_mem o.2
  omega

theorem scaleObj_figure (c w : ℚ) (objs : List LTObj) :
    scaleObj c (LTObj.figure w objs) =
      LTObj.figure (c * w) (objs.map (scaleObj c)) := by
  simp only [scaleObj]
  congr 1
  exact List.attach_map_coe objs (scaleObj c)

/-- Uniform rescaling of a whole page layout by factor `c`. -/
def scalePage (c : ℚ) (layout : LTPageM) : LTPageM :=
  ⟨c * layout.width, c * layout.height, layout.objs.map (scaleObj c)⟩

/-! ## The `parse` page loop (lines 42-60) -/

/-- Result of `normalize_pdf(layout, scale_factor)` for one page, tracked by
provenance: which layout it came from and which scale factor was applied.
(`normalize_pdf` itself belongs to the collaborator library.) -/
structure NormalizedPage where
  layout : LTPageM
  scale : ℚ

/-- First loop of `parse`: a page whose `process_page` raised `OverflowError`
is modelled as `none`; it is skipped (`continue`), every other page appends
its layout. -/
def parseLayouts : List (Option LTPageM) → List LTPageM
  | [] => []
  | none :: rest => parseLayouts rest
  | some l :: rest => l :: parseLayouts rest

/-- The 0-based page indices logged as skipped by the first loop of `parse`
(`"skipping page {page_num} of ..."`). -/
def skippedPagesFrom : Nat → List (Option LTPageM) → List Nat
  | _, [] => []
  | i, none :: rest => i :: skippedPagesFrom (i + 1) rest
  | i, some _ :: rest => skippedPagesFrom (i + 1) rest

def skippedPages (pages : List (Option LTPageM)) : List Nat :=
  skippedPagesFrom 0 pages

/-- Second loop of `parse`: number surviving layouts starting at `n`, compute
each scale factor, and populate `self.elems` and `self.font_stats` (two
mappings with identical keys). An unhandled `ScaleErr` aborts `parse`. -/
def buildMaps : Nat → List LTPageM →
    Except ScaleErr (List (Nat × NormalizedPage) × List (Nat × NormalizedPage))
  | _, [] => Except.ok ([], [])
  | n, l :: ls =>
    match computeScale l with
    | Except.error e => Except.error e
    | Except.ok s =>
      match buildMaps (n + 1) ls with
      | Except.error e => Except.error e
      | Except.ok (es, fs) => Except.ok ((n, ⟨l, s⟩) :: es, (n, ⟨l, s⟩) :: fs)

/-- `CustomTreeExtractor.parse` in full. -/
def parse (pages : List (Option LTPageM)) :
    Except ScaleErr (List (Nat × NormalizedPage) × List (Nat × NormalizedPage)) :=
  buildMaps 1 (parseLayouts pages)

/-- The `__main__` driver: after `parse`, one output file is written per key
of `elems`, named by `outputFilename`; each output is recorded here as its
file name paired with the normalized page it renders. -/
def pipelineOutputs (stem : List Char) (offset : Int)
    (pages : List (Option LTPageM)) :
    Except ScaleErr (List (List Char × NormalizedPage)) :=
  match parse pages with
  | Except.error e => Except.error e
  | Except.ok (es, _) =>
    Except.ok (es.map (fun pe => (outputFilename stem offset pe.1, pe.2)))

/-! ## Markup serialization (`get_html_for_page`, lines 62-117) -/

/-- Python `int(x)` on a float/rational: truncation toward zero. -/
def pyInt (q : ℚ) : Int := q.num.tdiv (q.den : Int)

/-- A DOM node of `xml.dom.minidom`: element with tag, attributes in the
order they were set, and children; or a text node. -/
inductive Node where
  | elem (tag : String) (attrs : List (String × String)) (children : List Node)
  | text (s : String)

/-- `clust.lower().replace(" ", "_")` (line 88). `str.lower` is modelled on
its ASCII behaviour, which covers every kind label in scope. -/
def normalizeKind (s : String) : String :=
  String.mk ((s.data.map Char.toLower).map (fun c => if c = ' ' then '_' else c))

/-- An entry of `self.tree[page_num][clust]`: the 7-tuple
`(pnum, pwidth, pheight, top, left, bottom, right)` (lines 84-86). -/
structure PdfItem where
  pnum : Nat
  pwidth : ℚ
  pheight : ℚ
  top : ℚ
  left : ℚ
  bottom : ℚ
  right : ℚ

/-- Lines 82-89: flatten `self.tree[page_num]` (an insertion-ordered mapping
from cluster kind to item list) into `[kind_normalized, top, left, bottom,
right]` boxes. -/
def collectBoxes (tree : List (String × List PdfItem)) : List Box :=
  (tree.map (fun ci =>
    ci.2.map (fun it =>
      Box.mk (normalizeKind ci.1) it.top it.left it.bottom it.right))).flatten

/-- Title attribute of the page container (line 97):
`f"bbox 0 0 {width} {height}; ppageno 0"` with `width`/`height` the
truncated layout dimensions. -/
def pageTitle (w h : ℚ) : String :=
  "bbox 0 0 " ++ (intRepr (pyInt w)).asString ++ " " ++
    (intRepr (pyInt h)).asString ++ "; ppageno 0"

/-- Title attribute of a figure placeholder (lines 110-113):
`f"bbox {left} {top} {right} {bottom}"` over the truncated coordinates. -/
def figureTitle (top left bottom right : ℚ) : String :=
  "bbox " ++ (intRepr (pyInt left)).asString ++ " " ++
    (intRepr (pyInt top)).asString ++ " " ++
    (intRepr (pyInt right)).asString ++ " " ++
    (intRepr (pyInt bottom)).asString

/-- The per-box branch of the serialization loop (lines 102-116). The
`table` and generic branches delegate to the collaborator library's
`get_html_table` / `get_html_others`, taken as parameters. -/
def serializeBox (tableRes : ℚ × ℚ × ℚ × ℚ → Nat → Node)
    (othersRes : String → ℚ × ℚ × ℚ × ℚ → Nat → Node)
    (pageNum : Nat) (b : Box) : Node :=
  if b.kind = "table" then tableRes (b.top, b.left, b.bottom, b.right) pageNum
  else if b.kind = "figure" then
    Node.elem "figure" [("title", figureTitle b.top b.left b.bottom b.right)] []
  else othersRes b.kind (b.top, b.left, b.bottom, b.right) pageNum

/-- `get_html_for_page`: the whole emitted document for one page.
`version` is `pdftotree.__version__`; `tableRes`/`othersRes` stand for the
collaborator methods `get_html_table`/`get_html_others`. -/
def get_html_for_page (version : String)
    (tableRes : ℚ × ℚ × ℚ × ℚ → Nat → Node)
    (othersRes : String → ℚ × ℚ × ℚ × ℚ → Nat → Node)
    (tree : List (String × List PdfItem)) (layoutWidth layoutHeight : ℚ)
    (pageNum : Nat) : Node :=
  Node.elem "html" [("xmlns", "http://www.w3.org/1999/xhtml")]
    [Node.elem "head" []
      [Node.elem "meta"
        [("name", "ocr-system"),
         ("content", "Extracted from PDF by hocrextract/pdftotree " ++ version)] [],
       Node.elem "meta"
        [("name", "ocr-capabilities"),
         ("content", "ocr_page ocr_table ocrx_block ocrx_word")] []],
     Node.elem "body" []
      [Node.elem "div"
        [("class", "ocr_page"), ("id", "page_1"),
         ("title", pageTitle layoutWidth layoutHeight)]
        ((sortReadingOrder (collectBoxes tree)).map
          (serializeBox tableRes othersRes pageNum))]]

mutual

/-- All descendants (including the node itself) carrying the
`class="ocr_page"` attribute: the emitted page containers. -/
def findOcrPages : Node → List Node
  | Node.text _ => []
  | Node.elem tag attrs children =>
    (if ("class", "ocr_page") ∈ attrs then [Node.elem tag attrs children] else [])
      ++ findOcrPagesList children

def findOcrPagesList : List Node → List Node
  | [] => []
  | n :: ns => findOcrPages n ++ findOcrPagesList ns

end

/-- The `title` attribute of an element node, if set. -/
def nodeTitle : Node → Option String
  | Node.elem _ attrs _ => (attrs.find? (fun p => p.1 = "title")).map Prod.snd
  | Node.text _ => none

/-! ## Claims about reading order -/

/-- C1: for any pair of regions with disjoint horizontal ranges `[0,100]` and
`[200,300]`, the first with `top = 500` and the second with `top = 10`, the
reading-order sort places the left-column region `[0,100]` first, starting
from either input order, despite the left region being vertically lower. -/
theorem C1_column_disambiguation (k₁ k₂ : String) (bot₁ bot₂ : ℚ) :
    sortReadingOrder [Box.mk k₁ 500 0 bot₁ 100, Box.mk k₂ 10 200 bot₂ 300] =
      [Box.mk k₁ 500 0 bot₁ 100, Box.mk k₂ 10 200 bot₂ 300] ∧
    sortReadingOrder [Box.mk k₂ 10 200 bot₂ 300, Box.mk k₁ 500 0 bot₁ 100] =
      [Box.mk k₁ 500 0 bot₁ 100, Box.mk k₂ 10 200 bot₂ 300] := by
  have h12 : readingLe (Box.mk k₁ 500 0 bot₁ 100) (Box.mk k₂ 10 200 bot₂ 300) := by
    unfold readingLe column_order
    norm_num
  have h21 : ¬ readingLe (Box.mk k₂ 10 200 bot₂ 300) (Box.mk k₁ 500 0 bot₁ 100) := by
    unfold readingLe column_order
    norm_num
  constructor
  · unfold sortReadingOrder
    simp only [List.insertionSort, List.orderedInsert]
    rw [if_pos h12]
  · unfold sortReadingOrder
    simp only [List.insertionSort, List.orderedInsert]
    rw [if_neg h21]

/-- C7: the reading-order sort is idempotent, deterministic (equal inputs give
equal outputs), and stable: two regions the comparator reports as equal (in
fact, any two it does not strictly swap) keep their original relative order. -/
theorem C7_sort_properties :
    (∀ l : List Box, sortReadingOrder (sortReadingOrder l) = sortReadingOrder l) ∧
    (∀ l₁ l₂ : List Box, l₁ = l₂ → sortReadingOrder l₁ = sortReadingOrder l₂) ∧
    (∀ (a b : Box) (l : List Box), List.Sublist [a, b] l → column_order a b = 0 →
      List.Sublist [a, b] (sortReadingOrder l)) := by
  refine ⟨?_, ?_, ?_⟩
  · intro l
    exact insertionSort_idempotent readingLe readingLe_total l
  · intro l₁ l₂ h
    rw [h]
  · intro a b l hs hco
    exact pair_sublist_insertionSort readingLe hs (le_of_eq hco)

/-- Witness for C7 at a concrete input: two horizontally overlapping regions
with equal tops compare equal, and keep their collection order through the
sort; sorting the list twice equals sorting it once. -/
theorem C7_sort_properties_witness :
    column_order (Box.mk "header" 5 0 6 100) (Box.mk "paragraph" 5 50 7 150) = 0 ∧
    List.Sublist [Box.mk "header" 5 0 6 100, Box.mk "paragraph" 5 50 7 150]
      (sortReadingOrder [Box.mk "header" 5 0 6 100, Box.mk "paragraph" 5 50 7 150]) ∧
    sortReadingOrder (sortReadingOrder
        [Box.mk "header" 5 0 6 100, Box.mk "paragraph" 5 50 7 150]) =
      sortReadingOrder [Box.mk "header" 5 0 6 100, Box.mk "paragraph" 5 50 7 150] ∧
    sortReadingOrder [Box.mk "header" 5 0 6 100] =
      sortReadingOrder [Box.mk "header" 5 0 6 100] := by
  have hco : column_order (Box.mk "header" 5 0 6 100) (Box.mk "paragraph" 5 50 7 150) = 0 := by
    unfold column_order
    norm_num
  exact ⟨hco,
    C7_sort_properties.2.2 _ _ _ (List.Sublist.refl _) hco,
    C7_sort_properties.1 _,
    C7_sort_properties.2.1 _ _ rfl⟩

/-! ## Claims about scale correction -/

theorem isBgFigure_scaleObj (c w : ℚ) (hc : c ≠ 0) (o : LTObj) :
    isBgFigure (c * w) (scaleObj c o) = isBgFigure w o := by
  cases o with
  | figure fw objs =>
    rw [scaleObj_figure]
    simp only [isBgFigure]
    exact decide_eq_decide.mpr (mul_right_inj' hc)
  | image p => simp [scaleObj, isBgFigure]
  | other => simp [scaleObj, isBgFigure]

theorem scaleObj_image (c p : ℚ) : scaleObj c (LTObj.image p) = LTObj.image (c * p) := by
  simp [scaleObj]

theorem scaleObj_other (c : ℚ) : scaleObj c LTObj.other = LTObj.other := by
  simp [scaleObj]

theorem isImage_scaleObj (c : ℚ) (o : LTObj) :
    isImage (scaleObj c o) = isImage o := by
  cases o with
  | figure fw objs => rw [scaleObj_figure]; rfl
  | image p => rw [scaleObj_image]; rfl
  | other => rw [scaleObj_other]

theorem computeScale_none {layout : LTPageM}
    (h : layout.objs.find? (isBgFigure layout.width) = none) :
    computeScale layout = Except.error ScaleErr.noBgFigure := by
  unfold computeScale
  rw [h]

theorem computeScale_image {layout : LTPageM} {p : ℚ}
    (h : layout.objs.find? (isBgFigure layout.width) = some (LTObj.image p)) :
    computeScale layout = Except.error ScaleErr.noBgFigure := by
  unfold computeScale
  rw [h]

theorem computeScale_obj_other {layout : LTPageM}
    (h : layout.objs.find? (isBgFigure layout.width) = some LTObj.other) :
    computeScale layout = Except.error ScaleErr.noBgFigure := by
  unfold computeScale
  rw [h]

theorem computeScale_fig {layout : LTPageM} {fw : ℚ} {fobjs : List LTObj}
    (h : layout.objs.find? (isBgFigure layout.width) =
      some (LTObj.figure fw fobjs)) :
    computeScale layout =
      (match fobjs.find? isImage with
       | some (LTObj.image p) => Except.ok (p / layout.width)
       | _ => Except.error ScaleErr.noBgImage) := by
  unfold computeScale
  rw [h]

theorem computeScale_scalePage (c : ℚ) (hc : c ≠ 0) (layout : LTPageM) :
    computeScale (scalePage c layout) = computeScale layout := by
  have hfindeq : (scalePage c layout).objs.find?
        (isBgFigure ((scalePage c layout).width)) =
      Option.map (scaleObj c) (layout.objs.find? (isBgFigure layout.width)) := by
    show (layout.objs.map (scaleObj c)).find? (isBgFigure (c * layout.width)) = _
    rw [List.find?_map,
      show (isBgFigure (c * layout.width) ∘ scaleObj c) = isBgFigure layout.width
        from funext (isBgFigure_scaleObj c layout.width hc)]
  cases hfind : layout.objs.find? (isBgFigure layout.width) with
  | none =>
    have hs : (scalePage c layout).objs.find?
        (isBgFigure ((scalePage c layout).width)) = none := by
      rw [hfindeq, hfind]
      rfl
    rw [computeScale_none hs, computeScale_none hfind]
  | some o =>
    cases o with
    | figure fw fobjs =>
      have hs : (scalePage c layout).objs.find?
          (isBgFigure ((scalePage c layout).width)) =
          some (LTObj.figure (c * fw) (fobjs.map (scaleObj c))) := by
        rw [hfindeq, hfind, Option.map_some', scaleObj_figure]
      rw [computeScale_fig hs, computeScale_fig hfind]
      have hfind2eq : (fobjs.map (scaleObj c)).find? isImage =
          Option.map (scaleObj c) (fobjs.find? isImage) := by
        rw [List.find?_map,
          show (isImage ∘ scaleObj c) = isImage from funext (isImage_scaleObj c)]
      rw [hfind2eq]
      cases hfind2 : fobjs.find? isImage with
      | none => rfl
      | some o2 =>
        cases o2 with
        | figure fw2 fobjs2 =>
          rw [Option.map_some', scaleObj_figure]
        | image p =>
          rw [Option.map_some', scaleObj_image]
          show Except.ok (c * p / (c * layout.width)) = _
          rw [mul_div_mul_left p layout.width hc]
        | other =>
          rw [Option.map_some', scaleObj_other]
    | image p =>
      have hs : (scalePage c layout).objs.find?
          (isBgFigure ((scalePage c layout).width)) =
          some (LTObj.image (c * p)) := by
        rw [hfindeq, hfind, Option.map_some', scaleObj_image]
      rw [computeScale_image hs, computeScale_image hfind]
    | other =>
      have hs : (scalePage c layout).objs.find?
          (isBgFigure ((scalePage c layout).width)) = some LTObj.other := by
        rw [hfindeq, hfind, Option.map_some', scaleObj_other]
      rw [computeScale_obj_other hs, computeScale_obj_other hfind]

/-- C3: for a page of layout width `W > 0` whose background-raster lookup
finds a full-page figure bearing an image of pixel width `P`, the computed
scale factor is exactly `P / W`, and rescaling the whole page (both `P` and
`W`) by any positive factor leaves the result unchanged. -/
theorem C3_scale_factor (layout : LTPageM) (P fw : ℚ) (fobjs : List LTObj)
    (hW : 0 < layout.width)
    (hfig : layout.objs.find? (isBgFigure layout.width) =
      some (LTObj.figure fw fobjs))
    (himg : fobjs.find? isImage = some (LTObj.image P)) :
    computeScale layout = Except.ok (P / layout.width) ∧
    ∀ c : ℚ, 0 < c →
      computeScale (scalePage c layout) = Except.ok (P / layout.width) := by
  have h1 : computeScale layout = Except.ok (P / layout.width) := by
    rw [computeScale_fig hfig, himg]
  refine ⟨h1, fun c hc => ?_⟩
  rw [computeScale_scalePage c (ne_of_gt hc) layout, h1]

/-- Witness for C3: a page of width 480 with a full-page figure holding an
image 600 pixels wide gets scale factor `600 / 480`, also after doubling. -/
theorem C3_scale_factor_witness :
    (0 : ℚ) < 480 ∧
    computeScale (LTPageM.mk 480 640
      [LTObj.other, LTObj.figure 480 [LTObj.other, LTObj.image 600]]) =
      Except.ok (600 / 480) ∧
    computeScale (scalePage 2 (LTPageM.mk 480 640
      [LTObj.other, LTObj.figure 480 [LTObj.other, LTObj.image 600]])) =
      Except.ok (600 / 480) := by
  have h := C3_scale_factor
    (LTPageM.mk 480 640 [LTObj.other, LTObj.figure 480 [LTObj.other, LTObj.image 600]])
    600 480 [LTObj.other, LTObj.image 600] (by norm_num) rfl rfl
  exact ⟨by norm_num, h.1, h.2 2 (by norm_num)⟩

/-- C4: on a page whose drawable objects contain no width-matching figure
bearing an image, the scale-correction step of `parse` raises (the model of)
`StopIteration` for that page instead of defaulting the factor to `1.0`. -/
theorem C4_missing_raster_fails (layout : LTPageM)
    (h : ∀ fw fobjs, LTObj.figure fw fobjs ∈ layout.objs → fw = layout.width →
      ∀ p : ℚ, LTObj.image p ∉ fobjs) :
    (∃ e : ScaleErr, computeScale layout = Except.error e) ∧
    computeScale layout ≠ Except.ok 1 := by
  have herr : ∃ e : ScaleErr, computeScale layout = Except.error e := by
    cases hfind : layout.objs.find? (isBgFigure layout.width) with
    | none => exact ⟨ScaleErr.noBgFigure, computeScale_none hfind⟩
    | some o =>
      have hp := List.find?_some hfind
      have hmem := List.mem_of_find?_eq_some hfind
      cases o with
      | figure fw fobjs =>
        have hfw : fw = layout.width := by
          simpa [isBgFigure] using hp
        refine ⟨ScaleErr.noBgImage, ?_⟩
        rw [computeScale_fig hfind]
        cases hfind2 : fobjs.find? isImage with
        | none => rfl
        | some o2 =>
          have hp2 := List.find?_some hfind2
          have hmem2 := List.mem_of_find?_eq_some hfind2
          cases o2 with
          | figure fw2 fobjs2 => simp [isImage] at hp2
          | image p => exact absurd hmem2 (h fw fobjs hmem hfw p)
          | other => simp [isImage] at hp2
      | image p => exact ⟨ScaleErr.noBgFigure, computeScale_image hfind⟩
      | other => exact ⟨ScaleErr.noBgFigure, computeScale_obj_other hfind⟩
  refine ⟨herr, ?_⟩
  rcases herr with ⟨e, he⟩
  rw [he]
  intro hcontra
  exact Except.noConfusion hcontra

/-- Witness for C4: a page with no figure objects at all fails scale
correction and never yields the silent default `1.0`. -/
theorem C4_missing_raster_fails_witness :
    (∃ e : ScaleErr,
      computeScale (LTPageM.mk 480 640 [LTObj.other]) = Except.error e) ∧
    computeScale (LTPageM.mk 480 640 [LTObj.other]) ≠ Except.ok 1 := by
  refine C4_missing_raster_fails _ ?_
  intro fw fobjs hmem
  simp at hmem

/-! ## Claims about the page pipeline -/

theorem buildMaps_keys :
    ∀ (ls : List LTPageM) (n : Nat) (es fs : List (Nat × NormalizedPage)),
      buildMaps n ls = Except.ok (es, fs) →
      es.map Prod.fst = List.range' n ls.length ∧
      fs.map Prod.fst = List.range' n ls.length := by
  intro ls
  induction ls with
  | nil =>
    intro n es fs h
    simp only [buildMaps, Except.ok.injEq, Prod.mk.injEq] at h
    obtain ⟨he, hf⟩ := h
    rw [← he, ← hf]
    exact ⟨rfl, rfl⟩
  | cons l ls ih =>
    intro n es fs h
    simp only [buildMaps] at h
    cases hcs : computeScale l with
    | error e => rw [hcs] at h; simp at h
    | ok s =>
      rw [hcs] at h
      cases hb : buildMaps (n + 1) ls with
      | error e => rw [hb] at h; simp at h
      | ok p =>
        obtain ⟨es', fs'⟩ := p
        rw [hb] at h
        simp only [Except.ok.injEq, Prod.mk.injEq] at h
        obtain ⟨he, hf⟩ := h
        obtain ⟨h1, h2⟩ := ih (n + 1) es' fs' hb
        rw [← he, ← hf]
        constructor
        · show n :: es'.map Prod.fst = List.range' n (ls.length + 1)
          rw [h1, List.range'_succ]
        · show n :: fs'.map Prod.fst = List.range' n (ls.length + 1)
          rw [h2, List.range'_succ]

theorem parseLayouts_length_countP (pages : List (Option LTPageM)) :
    (parseLayouts pages).length = pages.countP (fun p => p.isSome) := by
  induction pages with
  | nil => rfl
  | cons o rest ih =>
    cases o with
    | none => simpa [parseLayouts, List.countP_cons] using ih
    | some l => simpa [parseLayouts, List.countP_cons] using ih

/-- C10: whenever `parse` completes without error, the keys of `self.elems`
and `self.font_stats` are exactly the consecutive integers `1..n`, where `n`
is the number of pages whose interpretation raised no overflow error; a
skipped page shifts later pages' numbers down instead of leaving a gap. -/
theorem C10_keys_consecutive (pages : List (Option LTPageM))
    (es fs : List (Nat × NormalizedPage))
    (h : parse pages = Except.ok (es, fs)) :
    es.map Prod.fst = List.range' 1 (parseLayouts pages).length ∧
    fs.map Prod.fst = List.range' 1 (parseLayouts pages).length ∧
    (parseLayouts pages).length = pages.countP (fun p => p.isSome) := by
  obtain ⟨h1, h2⟩ := buildMaps_keys (parseLayouts pages) 1 es fs h
  exact ⟨h1, h2, parseLayouts_length_countP pages⟩

/-- Witness for C10: a 3-page document whose middle page overflows yields
maps keyed exactly `[1, 2]` — two surviving pages, renumbered without gap. -/
theorem C10_keys_consecutive_witness :
    ∃ es fs : List (Nat × NormalizedPage),
      parse [some (LTPageM.mk 480 640 [LTObj.figure 480 [LTObj.image 600]]),
             none,
             some (LTPageM.mk 480 640 [LTObj.figure 480 [LTObj.image 600]])] =
        Except.ok (es, fs) ∧
      es.map Prod.fst = [1, 2] ∧ fs.map Prod.fst = [1, 2] := by
  obtain ⟨es, fs, h⟩ :
      ∃ es fs,
        parse [some (LTPageM.mk 480 640 [LTObj.figure 480 [LTObj.image 600]]),
               none,
               some (LTPageM.mk 480 640 [LTObj.figure 480 [LTObj.image 600]])] =
          Except.ok (es, fs) := ⟨_, _, rfl⟩
  refine ⟨es, fs, h, ?_, ?_⟩
  · exact (C10_keys_consecutive _ es fs h).1
  · exact (C10_keys_consecutive _ es fs h).2.1

theorem skippedPagesFrom_mem :
    ∀ (pages : List (Option LTPageM)) (k i : Nat),
      pages.get? i = some none → (k + i) ∈ skippedPagesFrom k pages := by
  intro pages
  induction pages with
  | nil => intro k i h; simp at h
  | cons o rest ih =>
    intro k i h
    cases i with
    | zero =>
      simp only [List.get?] at h
      injection h with h'
      rw [h']
      simp [skippedPagesFrom]
    | succ j =>
      simp only [List.get?] at h
      have hmem := ih (k + 1) j h
      cases o with
      | none =>
        simp only [skippedPagesFrom]
        refine List.mem_cons_of_mem _ ?_
        have : k + 1 + j = k + (j + 1) := by omega
        rw [← this]
        exact hmem
      | some l =>
        simp only [skippedPagesFrom]
        have : k + 1 + j = k + (j + 1) := by omega
        rw [← this]
        exact hmem

theorem parseLayouts_skip_split :
    ∀ (pages : List (Option LTPageM)) (i : Nat), pages.get? i = some none →
      parseLayouts pages =
        parseLayouts (pages.take i) ++ parseLayouts (pages.drop (i + 1)) := by
  intro pages
  induction pages with
  | nil => intro i h; simp at h
  | cons o rest ih =>
    intro i h
    cases i with
    | zero =>
      simp only [List.get?] at h
      injection h with h'
      rw [h']
      simp [parseLayouts]
    | succ j =>
      simp only [List.get?] at h
      have hsplit := ih j h
      cases o with
      | none =>
        simpa [parseLayouts] using hsplit
      | some l =>
        simpa [parseLayouts] using hsplit

/-- C2: a page whose interpretation raises the overflow error is logged under
its index and skipped, and processing continues with the remaining pages; in
particular a 3-page document whose second page overflows produces exactly two
output files, rendered from source pages 1 and 3, and none from page 2. -/
theorem C2_page_isolation :
    (∀ (pages : List (Option LTPageM)) (i : Nat), pages.get? i = some none →
      i ∈ skippedPages pages ∧
      parseLayouts pages =
        parseLayouts (pages.take i) ++ parseLayouts (pages.drop (i + 1))) ∧
    (∀ (stem : List Char) (offset : Int) (p1 p3 : LTPageM) (s1 s3 : ℚ),
      computeScale p1 = Except.ok s1 → computeScale p3 = Except.ok s3 →
      skippedPages [some p1, none, some p3] = [1] ∧
      pipelineOutputs stem offset [some p1, none, some p3] =
        Except.ok [(outputFilename stem offset 1, NormalizedPage.mk p1 s1),
                   (outputFilename stem offset 2, NormalizedPage.mk p3 s3)]) := by
  constructor
  · intro pages i h
    refine ⟨?_, parseLayouts_skip_split pages i h⟩
    have := skippedPagesFrom_mem pages 0 i h
    simpa [skippedPages] using this
  · intro stem offset p1 p3 s1 s3 hs1 hs3
    constructor
    · rfl
    · show (match parse [some p1, none, some p3] with
        | Except.error e => Except.error e
        | Except.ok (es, _) =>
          Except.ok (es.map (fun pe : Nat × NormalizedPage =>
            (outputFilename stem offset pe.1, pe.2)))) = _
      have hparse : parse [some p1, none, some p3] =
          Except.ok ([(1, NormalizedPage.mk p1 s1), (2, NormalizedPage.mk p3 s3)],
                     [(1, NormalizedPage.mk p1 s1), (2, NormalizedPage.mk p3 s3)]) := by
        show buildMaps 1 [p1, p3] = _
        simp only [buildMaps, hs1, hs3]
      rw [hparse]
      rfl

/-- Witness for C2: concrete 3-page pipeline with an overflowing middle page;
the page at index 1 is logged, and exactly the files for the two surviving
pages are produced. -/
theorem C2_page_isolation_witness :
    [some (LTPageM.mk 480 640 [LTObj.figure 480 [LTObj.image 600]]), none,
       some (LTPageM.mk 480 640 [LTObj.figure 480 [LTObj.image 600]])].get? 1 =
      some none ∧
    (1 : Nat) ∈ skippedPages
      [some (LTPageM.mk 480 640 [LTObj.figure 480 [LTObj.image 600]]), none,
       some (LTPageM.mk 480 640 [LTObj.figure 480 [LTObj.image 600]])] ∧
    pipelineOutputs "doc".data 0
      [some (LTPageM.mk 480 640 [LTObj.figure 480 [LTObj.image 600]]), none,
       some (LTPageM.mk 480 640 [LTObj.figure 480 [LTObj.image 600]])] =
      Except.ok
        [(outputFilename "doc".data 0 1,
          NormalizedPage.mk (LTPageM.mk 480 640 [LTObj.figure 480 [LTObj.image 600]])
            (600 / 480)),
         (outputFilename "doc".data 0 2,
          NormalizedPage.mk (LTPageM.mk 480 640 [LTObj.figure 480 [LTObj.image 600]])
            (600 / 480))] := by
  refine ⟨rfl, ?_, ?_⟩
  · exact (C2_page_isolation.1
      [some (LTPageM.mk 480 640 [LTObj.figure 480 [LTObj.image 600]]), none,
       some (LTPageM.mk 480 640 [LTObj.figure 480 [LTObj.image 600]])] 1 rfl).1
  · exact (C2_page_isolation.2 "doc".data 0
      (LTPageM.mk 480 640 [LTObj.figure 480 [LTObj.image 600]])
      (LTPageM.mk 480 640 [LTObj.figure 480 [LTObj.image 600]])
      (600 / 480) (600 / 480) rfl rfl).2

/-! ## Claims about collection and serialization -/

/-- C6: region collection flattens the cluster map to boxes holding exactly
the normalized kind and the `(top, left, bottom, right)` coordinates, where
normalization lowercases and replaces spaces with underscores (`"Text Block"`
becomes `text_block`), deterministically. -/
theorem C6_collection_normalization :
    (∀ (tree : List (String × List PdfItem)) (b : Box),
      b ∈ collectBoxes tree ↔
        ∃ clust items it, (clust, items) ∈ tree ∧ it ∈ items ∧
          b = Box.mk (normalizeKind clust) it.top it.left it.bottom it.right) ∧
    normalizeKind "Text Block" = "text_block" ∧
    (∀ t₁ t₂ : List (String × List PdfItem), t₁ = t₂ →
      collectBoxes t₁ = collectBoxes t₂) := by
  refine ⟨?_, ?_, ?_⟩
  · intro tree b
    simp only [collectBoxes, List.mem_flatten, List.mem_map]
    constructor
    · rintro ⟨l, ⟨ci, hci, rfl⟩, hb⟩
      obtain ⟨it, hit, hbe⟩ := List.mem_map.mp hb
      exact ⟨ci.1, ci.2, it, hci, hit, hbe.symm⟩
    · rintro ⟨clust, items, it, hmem, hit, rfl⟩
      exact ⟨_, ⟨(clust, items), hmem, rfl⟩, List.mem_map.mpr ⟨it, hit, rfl⟩⟩
  · rfl
  · intro t₁ t₂ h
    rw [h]

/-- Witness for C6: a `"Text Block"` cluster with one item is collected as a
box with normalized kind `text_block` and its four coordinates. -/
theorem C6_collection_normalization_witness :
    Box.mk "text_block" 1 2 3 4 ∈
      collectBoxes [("Text Block", [PdfItem.mk 1 612 792 1 2 3 4])] ∧
    normalizeKind "Text Block" = "text_block" ∧
    collectBoxes [("Text Block", [PdfItem.mk 1 612 792 1 2 3 4])] =
      collectBoxes [("Text Block", [PdfItem.mk 1 612 792 1 2 3 4])] := by
  refine ⟨?_, C6_collection_normalization.2.1,
    C6_collection_normalization.2.2 _ _ rfl⟩
  refine (C6_collection_normalization.1 _ _).mpr
    ⟨"Text Block", [PdfItem.mk 1 612 792 1 2 3 4], PdfItem.mk 1 612 792 1 2 3 4,
      ?_, ?_, ?_⟩
  · simp
  · simp
  · rfl

/-- C8: a region of normalized kind `figure` serializes as a placeholder
element with no children whose only content is the `title` attribute
`bbox left top right bottom` over the truncated integer coordinates. -/
theorem C8_figure_placeholder (tableRes : ℚ × ℚ × ℚ × ℚ → Nat → Node)
    (othersRes : String → ℚ × ℚ × ℚ × ℚ → Nat → Node)
    (pageNum : Nat) (b : Box) (h : b.kind = "figure") :
    serializeBox tableRes othersRes pageNum b =
      Node.elem "figure"
        [("title",
          "bbox " ++ (intRepr (pyInt b.left)).asString ++ " " ++
            (intRepr (pyInt b.top)).asString ++ " " ++
            (intRepr (pyInt b.right)).asString ++ " " ++
            (intRepr (pyInt b.bottom)).asString)]
        [] := by
  unfold serializeBox
  rw [h]
  rfl

/-- Witness for C8: a concrete figure box becomes a childless placeholder
with the literal title `bbox 2 11 4 3` (coordinates reordered from
`top left bottom right` storage to `left top right bottom`). -/
theorem C8_figure_placeholder_witness :
    (Box.mk "figure" 11 2 3 4).kind = "figure" ∧
    serializeBox (fun _ _ => Node.text "t") (fun _ _ _ => Node.text "o") 1
        (Box.mk "figure" 11 2 3 4) =
      Node.elem "figure" [("title", "bbox 2 11 4 3")] [] := by
  refine ⟨rfl, ?_⟩
  rw [C8_figure_placeholder (fun _ _ => Node.text "t") (fun _ _ _ => Node.text "o")
    1 (Box.mk "figure" 11 2 3 4) rfl]
  rfl

theorem findOcrPages_serializeBox (tableRes : ℚ × ℚ × ℚ × ℚ → Nat → Node)
    (othersRes : String → ℚ × ℚ × ℚ × ℚ → Nat → Node) (pageNum : Nat)
    (hT : ∀ bb p, findOcrPages (tableRes bb p) = [])
    (hO : ∀ k bb p, findOcrPages (othersRes k bb p) = []) (b : Box) :
    findOcrPages (serializeBox tableRes othersRes pageNum b) = [] := by
  unfold serializeBox
  by_cases h1 : b.kind = "table"
  · rw [if_pos h1]
    exact hT _ _
  · rw [if_neg h1]
    by_cases h2 : b.kind = "figure"
    · rw [if_pos h2]
      simp [findOcrPages, findOcrPagesList]
    · rw [if_neg h2]
      exact hO _ _ _

theorem findOcrPagesList_serialized (tableRes : ℚ × ℚ × ℚ × ℚ → Nat → Node)
    (othersRes : String → ℚ × ℚ × ℚ × ℚ → Nat → Node) (pageNum : Nat)
    (hT : ∀ bb p, findOcrPages (tableRes bb p) = [])
    (hO : ∀ k bb p, findOcrPages (othersRes k bb p) = []) :
    ∀ bs : List Box,
      findOcrPagesList (bs.map (serializeBox tableRes othersRes pageNum)) = []
  | [] => by simp [findOcrPagesList]
  | b :: bs => by
    simp only [List.map_cons, findOcrPagesList,
      findOcrPages_serializeBox tableRes othersRes pageNum hT hO b,
      findOcrPagesList_serialized tableRes othersRes pageNum hT hO bs,
      List.append_nil]

/-- C5 (amended): the serializer emits exactly one page container per page;
its title is `bbox 0 0 width height; ppageno 0`, with truncated integer page
dimensions but with the `ppageno` field always the constant `0`, independent
of the page number being serialized. -/
theorem C5_page_container (version : String)
    (tableRes : ℚ × ℚ × ℚ × ℚ → Nat → Node)
    (othersRes : String → ℚ × ℚ × ℚ × ℚ → Nat → Node)
    (tree : List (String × List PdfItem)) (w h : ℚ) (pageNum : Nat)
    (hT : ∀ bb p, findOcrPages (tableRes bb p) = [])
    (hO : ∀ k bb p, findOcrPages (othersRes k bb p) = []) :
    (findOcrPages
        (get_html_for_page version tableRes othersRes tree w h pageNum)).map
      nodeTitle =
      [some ("bbox 0 0 " ++ (intRepr (pyInt w)).asString ++ " " ++
        (intRepr (pyInt h)).asString ++ "; ppageno 0")] := by
  unfold get_html_for_page
  simp only [findOcrPages, findOcrPagesList,
    findOcrPagesList_serialized tableRes othersRes pageNum hT hO]
  simp [nodeTitle, List.find?, pageTitle]

/-- Witness for C5 (amended): serializing page 1 of a 612×792 layout emits
exactly one page container, titled `bbox 0 0 612 792; ppageno 0`. -/
theorem C5_page_container_witness :
    (findOcrPages (get_html_for_page "0.5.0" (fun _ _ => Node.text "t")
        (fun _ _ _ => Node.text "o") [] 612 792 1)).map nodeTitle =
      [some "bbox 0 0 612 792; ppageno 0"] := by
  have h := C5_page_container "0.5.0" (fun _ _ => Node.text "t")
    (fun _ _ _ => Node.text "o") [] 612 792 1
    (fun _ _ => by simp [findOcrPages]) (fun _ _ _ => by simp [findOcrPages])
  rw [h]
  rfl

/-- Counterexample to C5 as stated: serializing page number 2 still emits the
title `bbox 0 0 100 200; ppageno 0`, which is not `ppageno N` for `N` the
page-order index of that page (whether counted from 0 or from 1). -/
theorem C5_ppageno_counterexample :
    (findOcrPages (get_html_for_page "0.5.0" (fun _ _ => Node.text "t")
        (fun _ _ _ => Node.text "o") [] 100 200 2)).map nodeTitle =
      [some "bbox 0 0 100 200; ppageno 0"] ∧
    "bbox 0 0 100 200; ppageno 0" ≠ "bbox 0 0 100 200; ppageno 2" ∧
    "bbox 0 0 100 200; ppageno 0" ≠ "bbox 0 0 100 200; ppageno 1" := by
  refine ⟨?_, by decide, by decide⟩
  simp only [get_html_for_page, findOcrPages, findOcrPagesList, sortReadingOrder,
    collectBoxes, List.map_nil, List.flatten_nil, List.insertionSort]
  simp [nodeTitle, List.find?, pageTitle]
  decide

/-! ## Claims about output file naming -/

theorem digitChar_ne_sign (d : Nat) : digitChar d ≠ '-' ∧ digitChar d ≠ '+' := by
  unfold digitChar
  split_ifs <;> exact ⟨by decide, by decide⟩

theorem digitVal_digitChar (d : Nat) (h : d < 10) : digitVal (digitChar d) = d := by
  unfold digitChar
  split_ifs with h0 h1 h2 h3 h4 h5 h6 h7 h8
  · rw [h0]; decide
  · rw [h1]; decide
  · rw [h2]; decide
  · rw [h3]; decide
  · rw [h4]; decide
  · rw [h5]; decide
  · rw [h6]; decide
  · rw [h7]; decide
  · rw [h8]; decide
  · have h9 : d = 9 := by omega
    rw [h9]; decide

theorem decodeNat_append_digit (l : List Char) (c : Char) :
    decodeNat (l ++ [c]) = 10 * decodeNat l + digitVal c := by
  unfold decodeNat
  rw [List.foldl_append]
  rfl

theorem decodeNat_natReprAux :
    ∀ (fuel n : Nat), n < 10 ^ fuel → decodeNat (natReprAux fuel n) = n := by
  intro fuel
  induction fuel with
  | zero =>
    intro n h
    have h0 : n = 0 := by simpa using h
    rw [h0]
    rfl
  | succ f ih =>
    intro n h
    rw [natReprAux]
    by_cases h10 : n < 10
    · rw [if_pos h10]
      show 10 * 0 + digitVal (digitChar n) = n
      rw [digitVal_digitChar n h10]
      omega
    · rw [if_neg h10]
      rw [decodeNat_append_digit]
      have hdiv : n / 10 < 10 ^ f := by
        rw [Nat.div_lt_iff_lt_mul (by omega : 0 < 10)]
        calc n < 10 ^ (f + 1) := h
        _ = 10 ^ f * 10 := by rw [pow_succ]
      rw [ih (n / 10) hdiv, digitVal_digitChar (n % 10) (Nat.mod_lt n (by omega))]
      omega

theorem decodeNat_natRepr (n : Nat) : decodeNat (natRepr n) = n := by
  refine decodeNat_natReprAux (n + 1) n ?_
  calc n < 10 ^ n := Nat.lt_pow_self (by omega) n
  _ ≤ 10 ^ (n + 1) := Nat.pow_le_pow_right (by omega) (Nat.le_succ n)

theorem natReprAux_head :
    ∀ (fuel n : Nat), 0 < fuel → ∃ c cs, natReprAux fuel n = c :: cs ∧
      c ≠ '-' ∧ c ≠ '+' := by
  intro fuel
  induction fuel with
  | zero => intro n h; omega
  | succ f ih =>
    intro n _
    rw [natReprAux]
    by_cases h10 : n < 10
    · rw [if_pos h10]
      exact ⟨digitChar n, [], rfl, (digitChar_ne_sign n).1, (digitChar_ne_sign n).2⟩
    · rw [if_neg h10]
      cases f with
      | zero =>
        exact ⟨digitChar (n % 10), [], rfl,
          (digitChar_ne_sign (n % 10)).1, (digitChar_ne_sign (n % 10)).2⟩
      | succ f' =>
        obtain ⟨c, cs, heq, hc1, hc2⟩ := ih (n / 10) (by omega)
        rw [heq]
        exact ⟨c, cs ++ [digitChar (n % 10)], rfl, hc1, hc2⟩

theorem natRepr_head (n : Nat) :
    ∃ c cs, natRepr n = c :: cs ∧ c ≠ '-' ∧ c ≠ '+' :=
  natReprAux_head (n + 1) n (by omega)

theorem decodeNat_replicate_zeros :
    ∀ (k : Nat) (l : List Char),
      decodeNat (List.replicate k '0' ++ l) = decodeNat l := by
  intro k
  induction k with
  | zero => intro l; rfl
  | succ j ih =>
    intro l
    show decodeNat ('0' :: (List.replicate j '0' ++ l)) = decodeNat l
    unfold decodeNat
    rw [List.foldl_cons]
    show List.foldl _ (10 * 0 + digitVal '0') _ = _
    have hz : 10 * 0 + digitVal '0' = 0 := by decide
    rw [hz]
    exact ih l

theorem decodeInt_zfill_intRepr (n : Int) (w : Nat) :
    decodeInt (zfill w (intRepr n)) = n := by
  cases n with
  | ofNat m =>
    obtain ⟨c, cs, heq, hc1, hc2⟩ := natRepr_head m
    show decodeInt (zfill w (natRepr m)) = Int.ofNat m
    rw [heq]
    rw [zfill]
    have hsign : ¬ (c = '-' ∨ c = '+') := by
      rintro (hx | hx)
      · exact hc1 hx
      · exact hc2 hx
    by_cases hw : w ≤ (c :: cs).length
    · rw [if_pos hw]
      unfold decodeInt
      rw [if_neg (by simp [hc1] : ¬ ((c :: cs).head? = some '-'))]
      rw [← heq, decodeNat_natRepr]
      rfl
    · rw [if_neg hw, if_neg hsign]
      obtain ⟨k, hkeq⟩ : ∃ k, w - (c :: cs).length = k + 1 :=
        ⟨w - (c :: cs).length - 1, by omega⟩
      rw [hkeq]
      show decodeInt ('0' :: (List.replicate k '0' ++ (c :: cs))) = Int.ofNat m
      unfold decodeInt
      rw [if_neg (by simp :
        ¬ (('0' :: (List.replicate k '0' ++ (c :: cs))).head? = some '-'))]
      have hdz : decodeNat ('0' :: (List.replicate k '0' ++ (c :: cs))) = m := by
        show decodeNat (List.replicate (k + 1) '0' ++ (c :: cs)) = m
        rw [decodeNat_replicate_zeros, ← heq, decodeNat_natRepr]
      rw [hdz]
      rfl
  | negSucc m =>
    show decodeInt (zfill w ('-' :: natRepr (m + 1))) = Int.negSucc m
    rw [zfill]
    by_cases hw : w ≤ ('-' :: natRepr (m + 1)).length
    · rw [if_pos hw]
      unfold decodeInt
      rw [if_pos (by simp : (('-' :: natRepr (m + 1)).head? = some '-'))]
      show -(decodeNat (natRepr (m + 1)) : Int) = Int.negSucc m
      rw [decodeNat_natRepr, Int.negSucc_eq]
      push_cast
      ring
    · rw [if_neg hw, if_pos (Or.inl rfl)]
      unfold decodeInt
      rw [if_pos (by simp :
        (('-' :: (List.replicate (w - ('-' :: natRepr (m + 1)).length) '0' ++
          natRepr (m + 1))).head? = some '-'))]
      show -(decodeNat (List.replicate (w - ('-' :: natRepr (m + 1)).length) '0' ++
        natRepr (m + 1)) : Int) = Int.negSucc m
      rw [decodeNat_replicate_zeros, decodeNat_natRepr, Int.negSucc_eq]
      push_cast
      ring

theorem zfill_intRepr_injective (a b : Int)
    (h : zfill 4 (intRepr a) = zfill 4 (intRepr b)) : a = b := by
  have ha := decodeInt_zfill_intRepr a 4
  rw [h, decodeInt_zfill_intRepr b 4] at ha
  exact ha.symm

theorem zfill_length (w : Nat) (s : List Char) : w ≤ (zfill w s).length := by
  cases s with
  | nil => simp [zfill]
  | cons c rest =>
    rw [zfill]
    by_cases hw : w ≤ (c :: rest).length
    · rw [if_pos hw]
      exact hw
    · rw [if_neg hw]
      by_cases hsign : c = '-' ∨ c = '+'
      · rw [if_pos hsign]
        simp only [List.length_cons, List.length_append, List.length_replicate]
        simp only [List.length_cons] at hw
        omega
      · rw [if_neg hsign]
        simp only [List.length_cons, List.length_append, List.length_replicate]
        simp only [List.length_cons] at hw
        omega

theorem zfill_intRepr_nonneg (w : Nat) (m : Nat) :
    zfill w (intRepr (Int.ofNat m)) =
      List.replicate (w - (natRepr m).length) '0' ++ natRepr m := by
  obtain ⟨c, cs, heq, hc1, hc2⟩ := natRepr_head m
  show zfill w (natRepr m) = _
  rw [heq, zfill]
  have hsign : ¬ (c = '-' ∨ c = '+') := by
    rintro (hx | hx)
    · exact hc1 hx
    · exact hc2 hx
  by_cases hw : w ≤ (c :: cs).length
  · rw [if_pos hw]
    have h0 : w - (c :: cs).length = 0 := by omega
    rw [h0]
    rfl
  · rw [if_neg hw, if_neg hsign]

/-- C9: each output file is named `{stem}-{z}_HOCR.shtml` where `z` is the
decimal rendering of `pageNum + offset` zero-padded on the left to at least 4
characters; for a fixed stem and offset, distinct page numbers give distinct
paths. -/
theorem C9_output_filename :
    (∀ (stem : List Char) (offset : Int) (i : Nat),
      outputFilename stem offset i =
        stem ++ ('-' :: zfill 4 (intRepr ((i : Int) + offset))) ++
          "_HOCR.shtml".data ∧
      4 ≤ (zfill 4 (intRepr ((i : Int) + offset))).length) ∧
    (∀ n : Nat,
      zfill 4 (intRepr (n : Int)) =
        List.replicate (4 - (natRepr n).length) '0' ++ natRepr n) ∧
    (∀ (stem : List Char) (offset : Int) (i j : Nat),
      outputFilename stem offset i = outputFilename stem offset j → i = j) := by
  refine ⟨?_, ?_, ?_⟩
  · intro stem offset i
    exact ⟨rfl, zfill_length 4 _⟩
  · intro n
    exact zfill_intRepr_nonneg 4 n
  · intro stem offset i j h
    unfold outputFilename at h
    rw [List.append_assoc, List.append_assoc] at h
    have h1 := List.append_cancel_left h
    rw [List.cons_append, List.cons_append] at h1
    injection h1 with _ h2
    have h3 := List.append_cancel_right h2
    have h4 := zfill_intRepr_injective _ _ h3
    omega

/-- Witness for C9 at stem `doc`, offset 4, page 3: the name decomposes as
specified, the padded index is at least 4 characters, padding is by leading
zeros, and equal names force equal page numbers. -/
theorem C9_output_filename_witness :
    outputFilename "doc".data 4 3 =
      "doc".data ++ ('-' :: zfill 4 (intRepr ((3 : Int) + 4))) ++
        "_HOCR.shtml".data ∧
    4 ≤ (zfill 4 (intRepr ((3 : Int) + 4))).length ∧
    zfill 4 (intRepr ((7 : Nat) : Int)) =
      List.replicate (4 - (natRepr 7).length) '0' ++ natRepr 7 ∧
    (3 : Nat) = 3 := by
  exact ⟨(C9_output_filename.1 "doc".data 4 3).1,
    (C9_output_filename.1 "doc".data 4 3).2,
    C9_output_filename.2.1 7,
    C9_output_filename.2.2 "doc".data 4 3 3 rfl⟩
